import Mathlib

/-!
Verification of the numeric sanitization and sliding-window statistics
subsystem of `general_utilities.py`.

The embedding models an IEEE double as either NaN, +Infinity, -Infinity,
or a finite value (represented exactly as a rational, since all claims
about arithmetic are stated for exact arithmetic).  The numpy predicates
`isnan`, `isinf`, `isneginf` are modelled exactly as numpy defines them:
in particular `isinf` is true for BOTH infinities.
-/

namespace GeneralUtilities

/-- Model of a Python float value: NaN, +Infinity, -Infinity, or a finite
number represented exactly. -/
inductive PyFloat : Type where
  | NaN : PyFloat
  | Inf : PyFloat
  | NegInf : PyFloat
  | finite : ℚ → PyFloat
deriving DecidableEq, Repr

namespace PyFloat

/-- numpy.isnan -/
def isnan : PyFloat → Bool
  | NaN => true
  | _ => false

/-- numpy.isinf: true for BOTH +Infinity and -Infinity. -/
def isinf : PyFloat → Bool
  | Inf => true
  | NegInf => true
  | _ => false

/-- numpy.isneginf: true only for -Infinity. -/
def isneginf : PyFloat → Bool
  | NegInf => true
  | _ => false

/-- Python comparison x < y on floats; any comparison with NaN is false. -/
def pyLt : PyFloat → PyFloat → Bool
  | NaN, _ => false
  | _, NaN => false
  | NegInf, NegInf => false
  | NegInf, _ => true
  | _, NegInf => false
  | Inf, _ => false
  | finite _, Inf => true
  | finite a, finite b => decide (a < b)

/-- Python test x < 0. -/
def lt0 (x : PyFloat) : Bool := pyLt x (finite 0)

/-- Python test x > 0. -/
def gt0 (x : PyFloat) : Bool := pyLt (finite 0) x

/-- Python test x == 0 (false for NaN and both infinities). -/
def eq0 : PyFloat → Bool
  | finite a => decide (a = 0)
  | _ => false

/-- Python test x <= 0. -/
def le0 (x : PyFloat) : Bool := lt0 x || eq0 x

/-- A value is finite when it is neither NaN nor an infinity. -/
def isFinite : PyFloat → Bool
  | finite _ => true
  | _ => false

/-- Multiplication by a positive rational constant (used only with the
constants 1.5 and 0.5 from the source). -/
def scaleBy (c : ℚ) : PyFloat → PyFloat
  | NaN => NaN
  | Inf => Inf
  | NegInf => NegInf
  | finite q => finite (c * q)

end PyFloat

open PyFloat

deriving instance DecidableEq for Except

/-- Python builtin min over a nonempty list (none on the empty list, where
Python raises ValueError): keep the current best, replacing it whenever a
later item compares strictly below it. -/
def pyMin (xs : List PyFloat) : Option PyFloat :=
  match xs with
  | [] => none
  | x :: rest => some (rest.foldl (fun acc y => if pyLt y acc then y else acc) x)

/-- Python builtin max over a nonempty list (none on the empty list, where
Python raises ValueError). -/
def pyMax (xs : List PyFloat) : Option PyFloat :=
  match xs with
  | [] => none
  | x :: rest => some (rest.foldl (fun acc y => if pyLt acc y then y else acc) x)

/-- A Python value passed to the collection sanitizers: a list, tuple, set
(modelled by its iteration order, elements distinct), a dict (association
list in key-iteration order, keys distinct), or any other object. -/
inductive PyData (κ : Type) : Type where
  | list : List PyFloat → PyData κ
  | tuple : List PyFloat → PyData κ
  | set : List PyFloat → PyData κ
  | dict : List (κ × PyFloat) → PyData κ
  | other : PyData κ
deriving DecidableEq

/-- Deduplication performed by the Python set constructor, keeping the
first occurrence of each element. -/
def pyDedup : List PyFloat → List PyFloat
  | [] => []
  | x :: rest => x :: (pyDedup rest).filter (fun y => decide (y ≠ x))

/-- Source `clean_number` (general_utilities.py lines 223-231), branch for
branch.  Note the `isinf` test precedes the `isneginf` test and numpy
`isinf` is true for -Infinity as well, so the `isneginf` branch is
unreachable. -/
def clean_number (val replace_NaN replace_Inf replace_NegInf : PyFloat)
    (make_positive : Bool) : PyFloat :=
  if isnan val then replace_NaN
  else if isinf val then replace_Inf
  else if isneginf val then replace_NegInf
  else if make_positive && le0 val then replace_NegInf
  else val

/-- The list comprehension filters of general_utilities.py lines 247-248:
with `make_positive` the values that are strictly positive and not NaN,
otherwise the values that are neither -Infinity nor NaN.  Neither filter
excludes +Infinity. -/
def negInf_candidates (input_list : List PyFloat) (make_positive : Bool) :
    List PyFloat :=
  if make_positive then input_list.filter (fun x => gt0 x && !isnan x)
  else input_list.filter (fun x => !isneginf x && !isnan x)

/-- The list comprehension filter of general_utilities.py line 251: the
values that are not infinite (either sign) and not NaN. -/
def inf_candidates (input_list : List PyFloat) : List PyFloat :=
  input_list.filter (fun x => !isinf x && !isnan x)

/-- Derivation of `replace_NegInf` when the caller did not supply it
(general_utilities.py lines 246-250): minimum over the values passing the
source filters (note the filters do not exclude +Infinity), times 1.5 if
negative, else times 0.5.  Errors when the candidate list is empty, where
Python min raises ValueError. -/
def derive_NegInf (input_list : List PyFloat) (make_positive : Bool) :
    Except String PyFloat :=
  match pyMin (negInf_candidates input_list make_positive) with
  | none => Except.error "min argument is an empty sequence"
  | some m => Except.ok (if lt0 m then scaleBy (3/2) m else scaleBy (1/2) m)

/-- Derivation of `replace_Inf` when the caller did not supply it
(general_utilities.py line 251): 1.5 times the maximum over non-infinite
non-NaN values.  Errors when that list is empty. -/
def derive_Inf (input_list : List PyFloat) : Except String PyFloat :=
  match pyMax (inf_candidates input_list) with
  | none => Except.error "max argument is an empty sequence"
  | some m => Except.ok (scaleBy (3/2) m)

/-- Resolution of the `replace_NegInf` parameter: the supplied value if
any, otherwise the derived one (general_utilities.py line 246). -/
def resolve_NegInf (replace_NegInf : Option PyFloat)
    (input_list : List PyFloat) (make_positive : Bool) : Except String PyFloat :=
  match replace_NegInf with
  | some r => Except.ok r
  | none => derive_NegInf input_list make_positive

/-- Resolution of the `replace_Inf` parameter: the supplied value if any,
otherwise the derived one (general_utilities.py line 251). -/
def resolve_Inf (replace_Inf : Option PyFloat) (input_list : List PyFloat) :
    Except String PyFloat :=
  match replace_Inf with
  | some r => Except.ok r
  | none => derive_Inf input_list

/-- The value-list pass of `clean_data`: resolve the replacement policy
(deriving missing values from the data, NegInf first as in the source),
then map `clean_number`. -/
def clean_values (input_list : List PyFloat) (replace_NaN : PyFloat)
    (replace_Inf replace_NegInf : Option PyFloat) (make_positive : Bool) :
    Except String (List PyFloat) :=
  match resolve_NegInf replace_NegInf input_list make_positive with
  | Except.error e => Except.error e
  | Except.ok rNegInf =>
    match resolve_Inf replace_Inf input_list with
    | Except.error e => Except.error e
    | Except.ok rInf =>
      Except.ok (input_list.map
        (fun x => clean_number x replace_NaN rInf rNegInf make_positive))

/-- Source `clean_data` (general_utilities.py lines 233-258): flatten the
collection to its value list, resolve the replacement policy, clean each
value, and reconstitute the original collection kind. -/
def clean_data {κ : Type} (input_data : PyData κ) (replace_NaN : PyFloat)
    (replace_Inf replace_NegInf : Option PyFloat) (make_positive : Bool) :
    Except String (PyData κ) :=
  match input_data with
  | PyData.list xs =>
      match clean_values xs replace_NaN replace_Inf replace_NegInf make_positive with
      | Except.error e => Except.error e
      | Except.ok ys => Except.ok (PyData.list ys)
  | PyData.tuple xs =>
      match clean_values xs replace_NaN replace_Inf replace_NegInf make_positive with
      | Except.error e => Except.error e
      | Except.ok ys => Except.ok (PyData.tuple ys)
  | PyData.set xs =>
      match clean_values xs replace_NaN replace_Inf replace_NegInf make_positive with
      | Except.error e => Except.error e
      | Except.ok ys => Except.ok (PyData.set (pyDedup ys))
  | PyData.dict kvs =>
      match clean_values (kvs.map Prod.snd) replace_NaN replace_Inf replace_NegInf make_positive with
      | Except.error e => Except.error e
      | Except.ok ys => Except.ok (PyData.dict ((kvs.map Prod.fst).zip ys))
  | PyData.other =>
      Except.error "input_data argument must be a list, tuple, set or dictionary"

/-- Inner predicate `bad_value` of source `clean_data_remove`
(general_utilities.py lines 264-270), a short-circuiting chain of checks.
Note `isinf` is true for -Infinity, and `x < 0` is also true for
-Infinity. -/
def bad_value (remove_NaN remove_Inf remove_NegInf remove_negative remove_zero : Bool)
    (x : PyFloat) : Bool :=
  if remove_NaN && isnan x then true
  else if remove_Inf && isinf x then true
  else if remove_NegInf && isneginf x then true
  else if remove_negative && lt0 x then true
  else if remove_zero && eq0 x then true
  else false

/-- Source `clean_data_remove` (general_utilities.py lines 261-281):
filter out the bad values, keeping the collection kind. -/
def clean_data_remove {κ : Type} (input_data : PyData κ)
    (remove_NaN remove_Inf remove_NegInf remove_negative remove_zero : Bool) :
    Except String (PyData κ) :=
  let bad := bad_value remove_NaN remove_Inf remove_NegInf remove_negative remove_zero
  match input_data with
  | PyData.list xs => Except.ok (PyData.list (xs.filter (fun x => !bad x)))
  | PyData.tuple xs => Except.ok (PyData.tuple (xs.filter (fun x => !bad x)))
  | PyData.set xs => Except.ok (PyData.set (pyDedup (xs.filter (fun x => !bad x))))
  | PyData.dict kvs => Except.ok (PyData.dict (kvs.filter (fun kx => !bad kx.2)))
  | PyData.other =>
      Except.error "input_data argument must be a list, tuple, set or dictionary"

/-- Source `_check_input` (general_utilities.py lines 309-310): shared
precondition of the sliding-window statistics.  The window size is an
arbitrary integer, rejected unless it is between 1 and the data length. -/
def _check_input (data : List ℚ) (window_size : Int) : Except String Unit :=
  if window_size < 1 ∨ window_size > (data.length : Int) then
    Except.error "window size must be between 1 and data length."
  else Except.ok ()

/-- Source `_make_window_indices` (general_utilities.py lines 312-315):
the center index of each window, computed as start index plus
`int(window_size/2)` (truncating division).  Python range of a
non-positive bound is empty, modelled by `Int.toNat`. -/
def _make_window_indices (data : List ℚ) (window_size : Int) : List Int :=
  let half_window := window_size.tdiv 2
  (List.range ((data.length : Int) - window_size + 1).toNat).map
    (fun i : ℕ => (i : Int) + half_window)

/-- The incremental loop of `moving_average`: starting from `prev` (the
average of the window at position `i`), produce `steps + 1` values where
each next value adds `(data[i + W] - data[i]) / W` to the previous one. -/
def ma_from (data : List ℚ) (W : ℕ) (prev : ℚ) (i : ℕ) : ℕ → List ℚ
  | 0 => [prev]
  | steps + 1 =>
      prev :: ma_from data W (prev + (data.getD (i + W) 0 - data.getD i 0) / (W : ℚ)) (i + 1) steps

/-- Source `moving_average` (general_utilities.py lines 318-332): check the
window size, seed with the mean of the first window, then apply the
incremental recurrence; optionally also return the window center
indices. -/
def moving_average (data : List ℚ) (window_size : Int) (return_indices : Bool) :
    Except String (List ℚ × Option (List Int)) :=
  match _check_input data window_size with
  | Except.error e => Except.error e
  | Except.ok _ =>
    let W := window_size.toNat
    let first_average := (data.take W).sum / (W : ℚ)
    let average_values := ma_from data W first_average 0 (data.length - W)
    if return_indices then
      Except.ok (average_values, some (_make_window_indices data window_size))
    else Except.ok (average_values, none)

/-- numpy.median over exact rationals: sort ascending, take the middle
element for odd length, the mean of the two middle elements for even
length. -/
def np_median (xs : List ℚ) : ℚ :=
  let sorted := List.insertionSort (fun a b => a ≤ b) xs
  if xs.length % 2 = 1 then sorted.getD (xs.length / 2) 0
  else (sorted.getD (xs.length / 2 - 1) 0 + sorted.getD (xs.length / 2) 0) / 2

/-- Source `moving_median` (general_utilities.py lines 336-347): check the
window size, then compute the median of each window independently;
optionally also return the window center indices. -/
def moving_median (data : List ℚ) (window_size : Int) (return_indices : Bool) :
    Except String (List ℚ × Option (List Int)) :=
  match _check_input data window_size with
  | Except.error e => Except.error e
  | Except.ok _ =>
    let W := window_size.toNat
    let median_values :=
      (List.range (data.length - W + 1)).map (fun i => np_median ((data.drop i).take W))
    if return_indices then
      Except.ok (median_values, some (_make_window_indices data window_size))
    else Except.ok (median_values, none)

/-- Direct (non-incremental) mean of the window of width `W` starting at
position `k`, following the words of the specification. -/
def direct_window_mean (data : List ℚ) (W : ℕ) (k : ℕ) : ℚ :=
  ((data.drop k).take W).sum / (W : ℚ)

/-- The flat list of numeric values held by a collection (for a dict, its
values in key-iteration order). -/
def PyData.valueList {κ : Type} : PyData κ → List PyFloat
  | PyData.list xs => xs
  | PyData.tuple xs => xs
  | PyData.set xs => xs
  | PyData.dict kvs => kvs.map Prod.snd
  | PyData.other => []

/-- Classification of a value in the order stated by the specification for
the removal sanitizer: NaN, then +Infinity, then -Infinity, then negative,
then exactly zero, else keep. -/
inductive ValueClass : Type where
  | nanC : ValueClass
  | infC : ValueClass
  | negInfC : ValueClass
  | negC : ValueClass
  | zeroC : ValueClass
  | keepC : ValueClass
deriving DecidableEq

/-- Classify a value by the first matching class in the priority order of
the specification. -/
def classify (x : PyFloat) : ValueClass :=
  if isnan x then ValueClass.nanC
  else if x = PyFloat.Inf then ValueClass.infC
  else if x = PyFloat.NegInf then ValueClass.negInfC
  else if lt0 x then ValueClass.negC
  else if eq0 x then ValueClass.zeroC
  else ValueClass.keepC

/-- Classify-then-check drop rule, amended to the observed code behavior:
the switch consulted for the -Infinity class is the disjunction of
`remove_Inf` (numpy isinf matches -Infinity), `remove_NegInf`, and
`remove_negative` (the negativity test also matches -Infinity); every
other class consults exactly its own switch. -/
def spec_drop_amended
    (remove_NaN remove_Inf remove_NegInf remove_negative remove_zero : Bool)
    (x : PyFloat) : Bool :=
  match classify x with
  | ValueClass.nanC => remove_NaN
  | ValueClass.infC => remove_Inf
  | ValueClass.negInfC => remove_Inf || remove_NegInf || remove_negative
  | ValueClass.negC => remove_negative
  | ValueClass.zeroC => remove_zero
  | ValueClass.keepC => false

/-- Modelled from the words of the specification for claim C7: the
candidate for the derived `replace_NegInf` is the minimum of the FINITE
values allowed by the policy (strictly-positive values when
`make_positive`, otherwise values that are neither NaN nor -Infinity),
multiplied by 1.5 if negative and by 0.5 otherwise; none when no finite
value qualifies. -/
def spec_derive_NegInf (input_list : List PyFloat) (make_positive : Bool) :
    Option PyFloat :=
  let candidates := input_list.filter
    (fun x => isFinite x &&
      (if make_positive then gt0 x else !isnan x && !isneginf x))
  (pyMin candidates).map
    (fun m => if lt0 m then scaleBy (3/2) m else scaleBy (1/2) m)

/-- Modelled from the words of the specification: the derived
`replace_Inf` is 1.5 times the maximum finite (non-NaN) value of the
data; none when there is no finite value. -/
def spec_derive_Inf (input_list : List PyFloat) : Option PyFloat :=
  (pyMax (input_list.filter (fun x => isFinite x && !isnan x))).map
    (scaleBy (3/2))

/-- The short-circuit chain of the source predicate agrees pointwise with
the amended classify-then-check rule. -/
lemma bad_value_eq_spec_drop
    (rNaN rInf rNegInf rNeg rZero : Bool) (x : PyFloat) :
    bad_value rNaN rInf rNegInf rNeg rZero x
      = spec_drop_amended rNaN rInf rNegInf rNeg rZero x := by
  cases x with
  | NaN => revert rNaN rInf rNegInf rNeg rZero; decide
  | Inf => revert rNaN rInf rNegInf rNeg rZero; decide
  | NegInf => revert rNaN rInf rNegInf rNeg rZero; decide
  | finite q =>
      rcases lt_trichotomy q 0 with h | h | h
      · have h2 : ¬ q = 0 := ne_of_lt h
        simp [bad_value, spec_drop_amended, classify, isnan, isinf, isneginf,
          lt0, eq0, pyLt, h, h2]
      · subst h
        simp [bad_value, spec_drop_amended, classify, isnan, isinf, isneginf,
          lt0, eq0, pyLt]
      · have h1 : ¬ q < 0 := not_lt.mpr (le_of_lt h)
        have h2 : ¬ q = 0 := ne_of_gt h
        simp [bad_value, spec_drop_amended, classify, isnan, isinf, isneginf,
          lt0, eq0, pyLt, h1, h2]

/-- C2 counterexample: with remove_NegInf disabled but remove_Inf enabled,
clean_data_remove still drops -Infinity (numpy isinf matches it), so the
claim that -Infinity is dropped exactly when remove_NegInf is enabled
fails. -/
theorem clean_data_remove_negInf_counterexample :
    clean_data_remove (κ := Nat) (PyData.list [PyFloat.NegInf])
        true true false false false
      = Except.ok (PyData.list []) ∧
    clean_data_remove (κ := Nat) (PyData.list [PyFloat.NegInf])
        true true false false false
      ≠ Except.ok (PyData.list [PyFloat.NegInf]) := by
  refine ⟨rfl, ?_⟩
  rw [show clean_data_remove (κ := Nat) (PyData.list [PyFloat.NegInf])
      true true false false false
    = Except.ok (PyData.list ([] : List PyFloat)) from rfl]
  simp

/-- C2 amended: a value is dropped exactly when, classified by the
priority NaN, +Infinity, -Infinity, negative, zero, its switch is enabled,
where the effective switch for -Infinity is the disjunction of remove_Inf,
remove_NegInf and remove_negative; surviving order is preserved for every
collection kind; with default switches the example of the specification
holds. -/
theorem clean_data_remove_amended :
    (∀ (rNaN rInf rNegInf rNeg rZero : Bool) (x : PyFloat),
        bad_value rNaN rInf rNegInf rNeg rZero x
          = spec_drop_amended rNaN rInf rNegInf rNeg rZero x) ∧
    (∀ (rNaN rInf rNegInf rNeg rZero : Bool) (xs : List PyFloat),
        clean_data_remove (κ := Nat) (PyData.list xs) rNaN rInf rNegInf rNeg rZero
          = Except.ok (PyData.list (xs.filter
              (fun x => !spec_drop_amended rNaN rInf rNegInf rNeg rZero x)))) ∧
    (∀ (rNaN rInf rNegInf rNeg rZero : Bool) (xs : List PyFloat),
        clean_data_remove (κ := Nat) (PyData.tuple xs) rNaN rInf rNegInf rNeg rZero
          = Except.ok (PyData.tuple (xs.filter
              (fun x => !spec_drop_amended rNaN rInf rNegInf rNeg rZero x)))) ∧
    (∀ (rNaN rInf rNegInf rNeg rZero : Bool) (xs : List PyFloat),
        clean_data_remove (κ := Nat) (PyData.set xs) rNaN rInf rNegInf rNeg rZero
          = Except.ok (PyData.set (pyDedup (xs.filter
              (fun x => !spec_drop_amended rNaN rInf rNegInf rNeg rZero x))))) ∧
    (∀ (rNaN rInf rNegInf rNeg rZero : Bool) (kvs : List (Nat × PyFloat)),
        clean_data_remove (κ := Nat) (PyData.dict kvs) rNaN rInf rNegInf rNeg rZero
          = Except.ok (PyData.dict (kvs.filter
              (fun kx => !spec_drop_amended rNaN rInf rNegInf rNeg rZero kx.2)))) ∧
    (∀ (rNaN rInf rNegInf rNeg rZero : Bool),
        clean_data_remove (κ := Nat) (PyData.list [PyFloat.NegInf])
            rNaN rInf rNegInf rNeg rZero
          = Except.ok (PyData.list
              (if rInf || rNegInf || rNeg then [] else [PyFloat.NegInf]))) ∧
    clean_data_remove (κ := Nat)
        (PyData.list [finite 1, PyFloat.NaN, PyFloat.Inf, PyFloat.NegInf, finite 2])
        true true true false false
      = Except.ok (PyData.list [finite 1, finite 2]) := by
  refine ⟨bad_value_eq_spec_drop, ?_, ?_, ?_, ?_, ?_, by rfl⟩
  · intro rNaN rInf rNegInf rNeg rZero xs
    simp only [clean_data_remove, bad_value_eq_spec_drop]
  · intro rNaN rInf rNegInf rNeg rZero xs
    simp only [clean_data_remove, bad_value_eq_spec_drop]
  · intro rNaN rInf rNegInf rNeg rZero xs
    simp only [clean_data_remove, bad_value_eq_spec_drop]
  · intro rNaN rInf rNegInf rNeg rZero kvs
    simp only [clean_data_remove, bad_value_eq_spec_drop]
  · intro rNaN rInf rNegInf rNeg rZero
    cases rInf <;> cases rNegInf <;> cases rNeg <;>
      simp [clean_data_remove, bad_value, isnan, isinf, isneginf, lt0, eq0, pyLt]

/-- Every element of the deduplicated list occurs in the original list. -/
lemma mem_of_mem_pyDedup {x : PyFloat} :
    ∀ {l : List PyFloat}, x ∈ pyDedup l → x ∈ l := by
  intro l
  induction l with
  | nil => intro h; exact absurd h (List.not_mem_nil x)
  | cons y rest ih =>
      intro h
      rcases List.mem_cons.mp h with h | h
      · exact h ▸ List.mem_cons_self y rest
      · exact List.mem_cons_of_mem y (ih (List.mem_of_mem_filter h))

/-- Filtering by a predicate that rejects `x` ignores a prior filter
removing occurrences of `x`. -/
lemma filter_filter_ne (p : PyFloat → Bool) (x : PyFloat) (hx : p x = false)
    (l : List PyFloat) :
    (l.filter (fun y => decide (y ≠ x))).filter p = l.filter p := by
  rw [List.filter_comm]
  apply List.filter_eq_self.mpr
  intro a ha
  have hpa : p a = true := (List.mem_filter.mp ha).2
  have : a ≠ x := by
    intro he
    rw [he, hx] at hpa
    exact Bool.false_ne_true hpa
  simpa using this

/-- Deduplication commutes with filtering. -/
lemma pyDedup_filter (p : PyFloat → Bool) :
    ∀ l : List PyFloat, pyDedup (l.filter p) = (pyDedup l).filter p := by
  intro l
  induction l with
  | nil => rfl
  | cons x rest ih =>
      by_cases hp : p x = true
      · rw [show (x :: rest).filter p = x :: rest.filter p by simp [hp]]
        rw [show pyDedup (x :: rest.filter p)
            = x :: (pyDedup (rest.filter p)).filter (fun y => decide (y ≠ x)) from rfl]
        rw [ih]
        rw [show pyDedup (x :: rest)
            = x :: (pyDedup rest).filter (fun y => decide (y ≠ x)) from rfl]
        rw [show (x :: (pyDedup rest).filter (fun y => decide (y ≠ x))).filter p
            = x :: ((pyDedup rest).filter (fun y => decide (y ≠ x))).filter p
            by simp [hp]]
        rw [List.filter_comm]
      · have hp0 : p x = false := Bool.eq_false_iff.mpr hp
        rw [show (x :: rest).filter p = rest.filter p by simp [hp0]]
        rw [ih]
        rw [show pyDedup (x :: rest)
            = x :: (pyDedup rest).filter (fun y => decide (y ≠ x)) from rfl]
        rw [show (x :: (pyDedup rest).filter (fun y => decide (y ≠ x))).filter p
            = ((pyDedup rest).filter (fun y => decide (y ≠ x))).filter p
            by simp [hp0]]
        rw [filter_filter_ne p x hp0]

/-- Deduplication is idempotent. -/
lemma pyDedup_idem : ∀ l : List PyFloat, pyDedup (pyDedup l) = pyDedup l := by
  intro l
  induction l with
  | nil => rfl
  | cons x rest ih =>
      rw [show pyDedup (x :: rest)
          = x :: (pyDedup rest).filter (fun y => decide (y ≠ x)) from rfl]
      rw [show pyDedup (x :: (pyDedup rest).filter (fun y => decide (y ≠ x)))
          = x :: (pyDedup ((pyDedup rest).filter (fun y => decide (y ≠ x)))).filter
              (fun y => decide (y ≠ x)) from rfl]
      rw [pyDedup_filter, ih]
      congr 1
      apply List.filter_eq_self.mpr
      intro a ha
      exact (List.mem_filter.mp ha).2

/-- C9: clean_data_remove is idempotent: a second application with the
same switches leaves the first output unchanged, for every supported
collection kind. -/
theorem clean_data_remove_idempotent (κ : Type) (d e : PyData κ)
    (rNaN rInf rNegInf rNeg rZero : Bool)
    (h : clean_data_remove d rNaN rInf rNegInf rNeg rZero = Except.ok e) :
    clean_data_remove e rNaN rInf rNegInf rNeg rZero = Except.ok e := by
  have hself : ∀ xs : List PyFloat,
      (xs.filter (fun x => !bad_value rNaN rInf rNegInf rNeg rZero x)).filter
          (fun x => !bad_value rNaN rInf rNegInf rNeg rZero x)
        = xs.filter (fun x => !bad_value rNaN rInf rNegInf rNeg rZero x) :=
    fun xs => List.filter_eq_self.mpr (fun a ha => (List.mem_filter.mp ha).2)
  cases d with
  | list xs =>
      simp only [clean_data_remove, Except.ok.injEq] at h
      subst h
      simp only [clean_data_remove, hself]
  | tuple xs =>
      simp only [clean_data_remove, Except.ok.injEq] at h
      subst h
      simp only [clean_data_remove, hself]
  | set xs =>
      simp only [clean_data_remove, Except.ok.injEq] at h
      subst h
      simp only [clean_data_remove]
      have h1 : (pyDedup (xs.filter
            (fun x => !bad_value rNaN rInf rNegInf rNeg rZero x))).filter
            (fun x => !bad_value rNaN rInf rNegInf rNeg rZero x)
          = pyDedup (xs.filter (fun x => !bad_value rNaN rInf rNegInf rNeg rZero x)) :=
        List.filter_eq_self.mpr
          (fun a ha => (List.mem_filter.mp (mem_of_mem_pyDedup ha)).2)
      rw [h1, pyDedup_idem]
  | dict kvs =>
      simp only [clean_data_remove, Except.ok.injEq] at h
      subst h
      simp only [clean_data_remove]
      rw [List.filter_eq_self.mpr (fun a ha => (List.mem_filter.mp ha).2)]
  | other =>
      simp only [clean_data_remove] at h
      exact Except.noConfusion h

/-- C9 witness: a second pass over the output of a first pass that removed
a NaN is a no-op. -/
theorem clean_data_remove_idempotent_witness :
    clean_data_remove (κ := Nat) (PyData.list [finite 1]) true true true false false
      = Except.ok (PyData.list [finite 1]) :=
  clean_data_remove_idempotent Nat (PyData.list [finite 1, PyFloat.NaN])
    (PyData.list [finite 1]) true true true false false rfl

/-- Inversion for the value-list pass: a successful clean is a map of
clean_number under some resolved policy. -/
lemma clean_values_ok_shape {input_list : List PyFloat} {rNaN : PyFloat}
    {rInf rNegInf : Option PyFloat} {mp : Bool} {ys : List PyFloat}
    (h : clean_values input_list rNaN rInf rNegInf mp = Except.ok ys) :
    ∃ a b, ys = input_list.map (fun x => clean_number x rNaN a b mp) := by
  unfold clean_values at h
  split at h
  · exact Except.noConfusion h
  · rename_i r1 h1
    split at h
    · exact Except.noConfusion h
    · rename_i r2 h2
      refine ⟨r2, r1, ?_⟩
      injection h with h
      exact h.symm

/-- A successful clean preserves the length of the value list. -/
lemma clean_values_ok_length {input_list : List PyFloat} {rNaN : PyFloat}
    {rInf rNegInf : Option PyFloat} {mp : Bool} {ys : List PyFloat}
    (h : clean_values input_list rNaN rInf rNegInf mp = Except.ok ys) :
    ys.length = input_list.length := by
  obtain ⟨a, b, rfl⟩ := clean_values_ok_shape h
  simp

/-- C10: clean_data preserves the length of list and tuple inputs and the
key list of dict inputs, but replacement inside a set can merge distinct
elements: the two-element set of +Infinity and 999 maps, under
replace_Inf = 999, to the one-element set of 999. -/
theorem clean_data_shape :
    (∀ (xs ys : List PyFloat) (rNaN : PyFloat) (rInf rNegInf : Option PyFloat)
        (mp : Bool),
        clean_data (κ := Nat) (PyData.list xs) rNaN rInf rNegInf mp
            = Except.ok (PyData.list ys) →
          ys.length = xs.length) ∧
    (∀ (xs ys : List PyFloat) (rNaN : PyFloat) (rInf rNegInf : Option PyFloat)
        (mp : Bool),
        clean_data (κ := Nat) (PyData.tuple xs) rNaN rInf rNegInf mp
            = Except.ok (PyData.tuple ys) →
          ys.length = xs.length) ∧
    (∀ (kvs kvs2 : List (Nat × PyFloat)) (rNaN : PyFloat)
        (rInf rNegInf : Option PyFloat) (mp : Bool),
        clean_data (κ := Nat) (PyData.dict kvs) rNaN rInf rNegInf mp
            = Except.ok (PyData.dict kvs2) →
          kvs2.map Prod.fst = kvs.map Prod.fst) ∧
    (clean_data (κ := Nat) (PyData.set [PyFloat.Inf, finite 999]) (finite 0)
          (some (finite 999)) none false
        = Except.ok (PyData.set [finite 999]) ∧
      ([PyFloat.Inf, finite 999] : List PyFloat).length = 2 ∧
      ([finite 999] : List PyFloat).length = 1) := by
  refine ⟨?_, ?_, ?_, by rfl, by rfl, by rfl⟩
  · intro xs ys rNaN rInf rNegInf mp h
    simp only [clean_data] at h
    split at h
    · exact Except.noConfusion h
    · rename_i zs hv
      injection h with h
      injection h with h
      subst h
      exact clean_values_ok_length hv
  · intro xs ys rNaN rInf rNegInf mp h
    simp only [clean_data] at h
    split at h
    · exact Except.noConfusion h
    · rename_i zs hv
      injection h with h
      injection h with h
      subst h
      exact clean_values_ok_length hv
  · intro kvs kvs2 rNaN rInf rNegInf mp h
    simp only [clean_data] at h
    split at h
    · exact Except.noConfusion h
    · rename_i zs hv
      injection h with h
      injection h with h
      subst h
      have hlen : (kvs.map Prod.fst).length ≤ zs.length := by
        rw [clean_values_ok_length hv]
        simp
      rw [List.map_fst_zip (kvs.map Prod.fst) zs hlen]

/-- C10 witness: the list clause applied at a concrete one-element
list. -/
theorem clean_data_shape_witness :
    ([finite 0] : List PyFloat).length = ([PyFloat.NaN] : List PyFloat).length :=
  clean_data_shape.1 [PyFloat.NaN] [finite 0] (finite 0) (some (finite 1))
    (some (finite 2)) false rfl

/-- C1: the claim states that clean_number applied to -Infinity returns
the replace_NegInf argument, in particular that
clean_number(-inf, 0, 999, -999) = -999.  The code contradicts this (and
its own docstring and dedicated isneginf branch): numpy isinf is true for
-Infinity as well, the isinf branch is tested first, so the call returns
the replace_Inf argument 999 and the isneginf branch is unreachable. -/
theorem clean_number_negInf_bug :
    clean_number PyFloat.NegInf (finite 0) (finite 999) (finite (-999)) false
      = finite 999 := by
  rfl

/-- C5: for every window size below 1 or above the data length, both
moving_average and moving_median fail with the invalid-argument error and
produce no partial output. -/
theorem moving_stats_invalid_window (data : List ℚ) (window_size : Int)
    (return_indices : Bool)
    (h : window_size < 1 ∨ window_size > (data.length : Int)) :
    moving_average data window_size return_indices
        = Except.error "window size must be between 1 and data length." ∧
      moving_median data window_size return_indices
        = Except.error "window size must be between 1 and data length." := by
  have hc : _check_input data window_size
      = Except.error "window size must be between 1 and data length." := by
    unfold _check_input
    rw [if_pos h]
  constructor
  · unfold moving_average
    rw [hc]
  · unfold moving_median
    rw [hc]

/-- C5 witness: window size 0 on a two-element list fails for both
operations. -/
theorem moving_stats_invalid_window_witness :
    moving_average [1, 2] 0 false
        = Except.error "window size must be between 1 and data length." ∧
      moving_median [1, 2] 0 false
        = Except.error "window size must be between 1 and data length." :=
  moving_stats_invalid_window [1, 2] 0 false (Or.inl (by decide))

/-- C8: clean_number leaves a finite value unchanged when make_positive is
false or the value is positive, maps NaN to replace_NaN and +Infinity to
replace_Inf, and maps a non-positive finite value to the replace_NegInf
argument when make_positive is true; with the concrete examples of the
specification. -/
theorem clean_number_finite_spec :
    (∀ (rNaN rInf rNegInf : PyFloat) (make_positive : Bool) (q : ℚ),
        ((make_positive = false ∨ 0 < q) →
          clean_number (finite q) rNaN rInf rNegInf make_positive = finite q) ∧
        (make_positive = true → q ≤ 0 →
          clean_number (finite q) rNaN rInf rNegInf make_positive = rNegInf)) ∧
    (∀ (rNaN rInf rNegInf : PyFloat) (make_positive : Bool),
        clean_number PyFloat.NaN rNaN rInf rNegInf make_positive = rNaN) ∧
    (∀ (rNaN rInf rNegInf : PyFloat) (make_positive : Bool),
        clean_number PyFloat.Inf rNaN rInf rNegInf make_positive = rInf) ∧
    clean_number PyFloat.NaN (finite 0) (finite 999) (finite (-999)) false
      = finite 0 ∧
    clean_number PyFloat.Inf (finite 0) (finite 999) (finite (-999)) false
      = finite 999 ∧
    clean_number (finite 5) (finite 0) (finite 999) (finite (-999)) true
      = finite 5 ∧
    clean_number (finite (-5)) (finite 0) (finite 999) (finite (-999)) true
      = finite (-999) := by
  refine ⟨?_, ?_, ?_, by decide, by decide, by decide, by decide⟩
  · intro rNaN rInf rNegInf make_positive q
    constructor
    · intro h
      rcases h with h | h
      · subst h
        simp [clean_number, isnan, isinf, isneginf]
      · have h1 : ¬ q < 0 := not_lt.mpr (le_of_lt h)
        have h2 : ¬ q = 0 := ne_of_gt h
        simp [clean_number, isnan, isinf, isneginf, le0, lt0, eq0, pyLt, h1, h2]
    · intro hmp hq
      subst hmp
      rcases lt_or_eq_of_le hq with h | h
      · simp [clean_number, isnan, isinf, isneginf, le0, lt0, eq0, pyLt, h]
      · simp [clean_number, isnan, isinf, isneginf, le0, lt0, eq0, pyLt, h]
  · intro rNaN rInf rNegInf make_positive
    rfl
  · intro rNaN rInf rNegInf make_positive
    rfl

/-- C8 witness: the universal clauses applied at concrete inputs. -/
theorem clean_number_finite_spec_witness :
    clean_number (finite 7) (finite 0) (finite 999) (finite (-999)) false
        = finite 7 ∧
      clean_number (finite (-1)) (finite 0) (finite 999) (finite (-999)) true
        = finite (-999) :=
  ⟨(clean_number_finite_spec.1 (finite 0) (finite 999) (finite (-999)) false 7).1
      (Or.inl rfl),
    (clean_number_finite_spec.1 (finite 0) (finite 999) (finite (-999)) true (-1)).2
      rfl (by norm_num)⟩

/-- C6 counterexample: with replace_NegInf unset and a data list holding
no finite value at all, the claim requires clean_data to raise, but the
derivation filter of the code admits +Infinity, so the call succeeds. -/
theorem clean_data_empty_finite_counterexample :
    ([PyFloat.Inf] : List PyFloat).filter isFinite = [] ∧
      clean_data (κ := Nat) (PyData.list [PyFloat.Inf]) (finite 0)
          (some (finite 999)) none false
        = Except.ok (PyData.list [finite 999]) :=
  ⟨rfl, rfl⟩

/-- C6 amended: clean_data fails for a non-collection input; and it
raises exactly when a needed derivation has an empty candidate list: for
replace_NegInf the candidates are the strictly-positive non-NaN values
(make_positive) or the values that are neither -Infinity nor NaN (which
may include +Infinity), for replace_Inf the non-infinite non-NaN
values. -/
theorem clean_data_error_conditions :
    (∀ (κ : Type) (rNaN : PyFloat) (rInf rNegInf : Option PyFloat) (mp : Bool),
        clean_data (κ := κ) PyData.other rNaN rInf rNegInf mp
          = Except.error "input_data argument must be a list, tuple, set or dictionary") ∧
    (∀ (κ : Type) (d : PyData κ) (rNaN : PyFloat) (rInf : Option PyFloat) (mp : Bool),
        d ≠ PyData.other →
        negInf_candidates d.valueList mp = [] →
        clean_data d rNaN rInf none mp
          = Except.error "min argument is an empty sequence") ∧
    (∀ (κ : Type) (d : PyData κ) (rNaN r : PyFloat) (mp : Bool),
        d ≠ PyData.other →
        inf_candidates d.valueList = [] →
        clean_data d rNaN none (some r) mp
          = Except.error "max argument is an empty sequence") := by
  refine ⟨fun κ rNaN rInf rNegInf mp => rfl, ?_, ?_⟩
  · intro κ d rNaN rInf mp hd hcand
    have hder : derive_NegInf (PyData.valueList d) mp
        = Except.error "min argument is an empty sequence" := by
      unfold derive_NegInf
      rw [hcand]
      rfl
    cases d with
    | list xs =>
        simp only [PyData.valueList] at hder
        simp only [clean_data, clean_values, resolve_NegInf, hder]
    | tuple xs =>
        simp only [PyData.valueList] at hder
        simp only [clean_data, clean_values, resolve_NegInf, hder]
    | set xs =>
        simp only [PyData.valueList] at hder
        simp only [clean_data, clean_values, resolve_NegInf, hder]
    | dict kvs =>
        simp only [PyData.valueList] at hder
        simp only [clean_data, clean_values, resolve_NegInf, hder]
    | other => exact absurd rfl hd
  · intro κ d rNaN r mp hd hcand
    have hder : derive_Inf (PyData.valueList d)
        = Except.error "max argument is an empty sequence" := by
      unfold derive_Inf
      rw [hcand]
      rfl
    cases d with
    | list xs =>
        simp only [PyData.valueList] at hder
        simp only [clean_data, clean_values, resolve_NegInf, resolve_Inf, hder]
    | tuple xs =>
        simp only [PyData.valueList] at hder
        simp only [clean_data, clean_values, resolve_NegInf, resolve_Inf, hder]
    | set xs =>
        simp only [PyData.valueList] at hder
        simp only [clean_data, clean_values, resolve_NegInf, resolve_Inf, hder]
    | dict kvs =>
        simp only [PyData.valueList] at hder
        simp only [clean_data, clean_values, resolve_NegInf, resolve_Inf, hder]
    | other => exact absurd rfl hd

/-- C6 witness: deriving replace_NegInf from a list holding only NaN
raises the min error. -/
theorem clean_data_error_conditions_witness :
    clean_data (κ := Nat) (PyData.list [PyFloat.NaN]) (finite 0) none none false
      = Except.error "min argument is an empty sequence" :=
  clean_data_error_conditions.2.1 Nat (PyData.list [PyFloat.NaN]) (finite 0)
    none false (fun h => PyData.noConfusion h) rfl

/-- Python strict comparison is asymmetric. -/
lemma pyLt_asymm : ∀ a b : PyFloat, pyLt a b = true → pyLt b a = false := by
  intro a b h
  cases a <;> cases b <;> simp_all [pyLt] <;> linarith

/-- Non-strict comparison (encoded as a false strict comparison) is
transitive through a non-NaN middle value. -/
lemma pyLe_trans : ∀ a b c : PyFloat, isnan b = false →
    pyLt b a = false → pyLt c b = false → pyLt c a = false := by
  intro a b c hb h1 h2
  cases a <;> cases b <;> cases c <;> simp_all [pyLt, isnan, not_lt] <;> linarith

/-- The running minimum of the fold is the start value or a list
element. -/
lemma foldl_min_mem : ∀ (rest : List PyFloat) (acc : PyFloat),
    rest.foldl (fun acc y => if pyLt y acc then y else acc) acc = acc ∨
      rest.foldl (fun acc y => if pyLt y acc then y else acc) acc ∈ rest := by
  intro rest
  induction rest with
  | nil => intro acc; exact Or.inl rfl
  | cons y rest ih =>
      intro acc
      simp only [List.foldl_cons]
      rcases ih (if pyLt y acc then y else acc) with h | h
      · by_cases hy : pyLt y acc = true
        · right
          rw [h, if_pos hy]
          exact List.mem_cons_self y rest
        · left
          rw [h, if_neg hy]
      · right
        exact List.mem_cons_of_mem y h

/-- The running minimum of the fold is a lower bound of the start value
and of every list element, provided no NaN takes part. -/
lemma foldl_min_le : ∀ (rest : List PyFloat) (acc : PyFloat),
    isnan acc = false → (∀ x ∈ rest, isnan x = false) →
    pyLt acc (rest.foldl (fun acc y => if pyLt y acc then y else acc) acc) = false ∧
      ∀ x ∈ rest,
        pyLt x (rest.foldl (fun acc y => if pyLt y acc then y else acc) acc) = false := by
  intro rest
  induction rest with
  | nil =>
      intro acc hacc hrest
      constructor
      · cases acc <;> simp [pyLt]
      · intro x hx
        exact absurd hx (List.not_mem_nil x)
  | cons y rest ih =>
      intro acc hacc hrest
      have hy : isnan y = false := hrest y (List.mem_cons_self y rest)
      have hrest2 : ∀ x ∈ rest, isnan x = false :=
        fun x hx => hrest x (List.mem_cons_of_mem y hx)
      simp only [List.foldl_cons]
      by_cases hcase : pyLt y acc = true
      · rw [if_pos hcase]
        obtain ⟨h1, h2⟩ := ih y hy hrest2
        refine ⟨?_, ?_⟩
        · exact pyLe_trans _ y _ hy h1 (pyLt_asymm y acc hcase)
        · intro x hx
          rcases List.mem_cons.mp hx with hx | hx
          · exact hx ▸ h1
          · exact h2 x hx
      · rw [if_neg hcase]
        obtain ⟨h1, h2⟩ := ih acc hacc hrest2
        refine ⟨h1, ?_⟩
        intro x hx
        rcases List.mem_cons.mp hx with hx | hx
        · subst hx
          exact pyLe_trans _ acc _ hacc h1 (Bool.eq_false_iff.mpr hcase)
        · exact h2 x hx

/-- Specification of pyMin on NaN-free lists: the result is a member and
a lower bound. -/
lemma pyMin_spec {xs : List PyFloat} {m : PyFloat}
    (hnan : ∀ x ∈ xs, isnan x = false) (h : pyMin xs = some m) :
    m ∈ xs ∧ ∀ x ∈ xs, pyLt x m = false := by
  cases xs with
  | nil => exact Option.noConfusion h
  | cons x rest =>
      have hm : rest.foldl (fun acc y => if pyLt y acc then y else acc) x = m := by
        injection h
      have hx : isnan x = false := hnan x (List.mem_cons_self x rest)
      have hr : ∀ z ∈ rest, isnan z = false :=
        fun z hz => hnan z (List.mem_cons_of_mem x hz)
      obtain ⟨h1, h2⟩ := foldl_min_le rest x hx hr
      constructor
      · rcases foldl_min_mem rest x with hh | hh
        · rw [hm] at hh
          exact hh ▸ List.mem_cons_self x rest
        · rw [hm] at hh
          exact List.mem_cons_of_mem x hh
      · intro z hz
        rcases List.mem_cons.mp hz with hz | hz
        · subst hz
          exact hm ▸ h1
        · exact hm ▸ h2 z hz

/-- The running maximum of the fold is the start value or a list
element. -/
lemma foldl_max_mem : ∀ (rest : List PyFloat) (acc : PyFloat),
    rest.foldl (fun acc y => if pyLt acc y then y else acc) acc = acc ∨
      rest.foldl (fun acc y => if pyLt acc y then y else acc) acc ∈ rest := by
  intro rest
  induction rest with
  | nil => intro acc; exact Or.inl rfl
  | cons y rest ih =>
      intro acc
      simp only [List.foldl_cons]
      rcases ih (if pyLt acc y then y else acc) with h | h
      · by_cases hy : pyLt acc y = true
        · right
          rw [h, if_pos hy]
          exact List.mem_cons_self y rest
        · left
          rw [h, if_neg hy]
      · right
        exact List.mem_cons_of_mem y h

/-- The running maximum of the fold is an upper bound of the start value
and of every list element, provided no NaN takes part. -/
lemma foldl_max_ge : ∀ (rest : List PyFloat) (acc : PyFloat),
    isnan acc = false → (∀ x ∈ rest, isnan x = false) →
    pyLt (rest.foldl (fun acc y => if pyLt acc y then y else acc) acc) acc = false ∧
      ∀ x ∈ rest,
        pyLt (rest.foldl (fun acc y => if pyLt acc y then y else acc) acc) x = false := by
  intro rest
  induction rest with
  | nil =>
      intro acc hacc hrest
      constructor
      · cases acc <;> simp [pyLt]
      · intro x hx
        exact absurd hx (List.not_mem_nil x)
  | cons y rest ih =>
      intro acc hacc hrest
      have hy : isnan y = false := hrest y (List.mem_cons_self y rest)
      have hrest2 : ∀ x ∈ rest, isnan x = false :=
        fun x hx => hrest x (List.mem_cons_of_mem y hx)
      simp only [List.foldl_cons]
      by_cases hcase : pyLt acc y = true
      · rw [if_pos hcase]
        obtain ⟨h1, h2⟩ := ih y hy hrest2
        refine ⟨?_, ?_⟩
        · exact pyLe_trans acc y _ hy (pyLt_asymm acc y hcase) h1
        · intro x hx
          rcases List.mem_cons.mp hx with hx | hx
          · exact hx ▸ h1
          · exact h2 x hx
      · rw [if_neg hcase]
        obtain ⟨h1, h2⟩ := ih acc hacc hrest2
        refine ⟨h1, ?_⟩
        intro x hx
        rcases List.mem_cons.mp hx with hx | hx
        · subst hx
          exact pyLe_trans _ acc _ hacc (Bool.eq_false_iff.mpr hcase) h1
        · exact h2 x hx

/-- Specification of pyMax on NaN-free lists: the result is a member and
an upper bound. -/
lemma pyMax_spec {xs : List PyFloat} {m : PyFloat}
    (hnan : ∀ x ∈ xs, isnan x = false) (h : pyMax xs = some m) :
    m ∈ xs ∧ ∀ x ∈ xs, pyLt m x = false := by
  cases xs with
  | nil => exact Option.noConfusion h
  | cons x rest =>
      have hm : rest.foldl (fun acc y => if pyLt acc y then y else acc) x = m := by
        injection h
      have hx : isnan x = false := hnan x (List.mem_cons_self x rest)
      have hr : ∀ z ∈ rest, isnan z = false :=
        fun z hz => hnan z (List.mem_cons_of_mem x hz)
      obtain ⟨h1, h2⟩ := foldl_max_ge rest x hx hr
      constructor
      · rcases foldl_max_mem rest x with hh | hh
        · rw [hm] at hh
          exact hh ▸ List.mem_cons_self x rest
        · rw [hm] at hh
          exact List.mem_cons_of_mem x hh
      · intro z hz
        rcases List.mem_cons.mp hz with hz | hz
        · subst hz
          exact hm ▸ h1
        · exact hm ▸ h2 z hz

/-- No candidate for the NegInf derivation is NaN. -/
lemma negInf_candidates_not_nan (xs : List PyFloat) (mp : Bool) :
    ∀ x ∈ negInf_candidates xs mp, isnan x = false := by
  intro x hx
  cases mp with
  | true =>
      simp [negInf_candidates, List.mem_filter, Bool.and_eq_true,
        Bool.not_eq_true'] at hx
      exact hx.2.2
  | false =>
      simp [negInf_candidates, List.mem_filter, Bool.and_eq_true,
        Bool.not_eq_true'] at hx
      exact hx.2.2

/-- No candidate for the Inf derivation is NaN, and each is finite. -/
lemma inf_candidates_finite (xs : List PyFloat) :
    ∀ x ∈ inf_candidates xs, isnan x = false ∧ isFinite x = true := by
  intro x hx
  unfold inf_candidates at hx
  have := (List.mem_filter.mp hx).2
  cases x <;> simp_all [isinf, isnan, isFinite]

/-- C7 counterexample: on the list holding only +Infinity the claim has
no minimum of finite values to offer, yet the code derives a value (the
candidate filter admits +Infinity and yields +Infinity itself). -/
theorem derive_negInf_spec_counterexample :
    spec_derive_NegInf [PyFloat.Inf] false = none ∧
      derive_NegInf [PyFloat.Inf] false = Except.ok PyFloat.Inf :=
  ⟨rfl, rfl⟩

/-- C7 amended: the derived replace_NegInf is the scaled minimum (member
and lower bound under the Python order) of the candidate values, whose
filter does not exclude +Infinity; the derived replace_Inf is 1.5 times
the maximum of the candidate values, which are exactly the finite non-NaN
values. -/
theorem derive_replacements_amended :
    (∀ (xs : List PyFloat) (mp : Bool) (v : PyFloat),
        derive_NegInf xs mp = Except.ok v →
        ∃ m, m ∈ negInf_candidates xs mp ∧
          (∀ x ∈ negInf_candidates xs mp, pyLt x m = false) ∧
          v = (if lt0 m then scaleBy (3/2) m else scaleBy (1/2) m)) ∧
    (∀ (xs : List PyFloat) (v : PyFloat),
        derive_Inf xs = Except.ok v →
        ∃ m, m ∈ inf_candidates xs ∧ isFinite m = true ∧
          (∀ x ∈ inf_candidates xs, pyLt m x = false) ∧
          v = scaleBy (3/2) m) ∧
    (∀ xs : List PyFloat,
        inf_candidates xs = xs.filter (fun x => isFinite x && !isnan x)) := by
  refine ⟨?_, ?_, ?_⟩
  · intro xs mp v h
    unfold derive_NegInf at h
    cases hm : pyMin (negInf_candidates xs mp) with
    | none =>
        rw [hm] at h
        exact Except.noConfusion h
    | some m =>
        rw [hm] at h
        injection h with h
        obtain ⟨hmem, hlb⟩ := pyMin_spec (negInf_candidates_not_nan xs mp) hm
        exact ⟨m, hmem, hlb, h.symm⟩
  · intro xs v h
    unfold derive_Inf at h
    cases hm : pyMax (inf_candidates xs) with
    | none =>
        rw [hm] at h
        exact Except.noConfusion h
    | some m =>
        rw [hm] at h
        injection h with h
        obtain ⟨hmem, hub⟩ := pyMax_spec
          (fun x hx => (inf_candidates_finite xs x hx).1) hm
        exact ⟨m, hmem, (inf_candidates_finite xs m hmem).2, hub, h.symm⟩
  · intro xs
    unfold inf_candidates
    apply List.filter_congr
    intro x hx
    cases x <;> rfl

/-- C7 witness: the NegInf clause at a list whose only candidate is
+Infinity. -/
theorem derive_replacements_amended_witness :
    ∃ m, m ∈ negInf_candidates [PyFloat.NaN, PyFloat.Inf] false ∧
      (∀ x ∈ negInf_candidates [PyFloat.NaN, PyFloat.Inf] false, pyLt x m = false) ∧
      PyFloat.Inf = (if lt0 m then scaleBy (3/2) m else scaleBy (1/2) m) :=
  derive_replacements_amended.1 [PyFloat.NaN, PyFloat.Inf] false PyFloat.Inf rfl

/-- The incremental loop produces one more value than it takes steps. -/
lemma ma_from_length (data : List ℚ) (W : ℕ) :
    ∀ (steps i : ℕ) (prev : ℚ), (ma_from data W prev i steps).length = steps + 1 := by
  intro steps
  induction steps with
  | zero => intro i prev; rfl
  | succ n ih =>
      intro i prev
      simp only [ma_from, List.length_cons, ih]

/-- Element lookup in a map over a range. -/
lemma getD_map_range (f : ℕ → Int) (n k : ℕ) (hk : k < n) :
    ((List.range n).map f).getD k 0 = f k := by
  rw [List.getD_eq_getElem?_getD, List.getElem?_map, List.getElem?_range hk]
  rfl

/-- C3: for a valid window size, moving_average and moving_median return
exactly length - window_size + 1 values and the same center-index list of
that length, whose k-th entry is k plus half the window size. -/
theorem moving_stats_lengths_and_indices (data : List ℚ) (window_size : Int)
    (h1 : 1 ≤ window_size) (h2 : window_size ≤ (data.length : Int)) :
    ∃ (avgs meds : List ℚ) (idxs : List Int),
      moving_average data window_size true = Except.ok (avgs, some idxs) ∧
      moving_median data window_size true = Except.ok (meds, some idxs) ∧
      avgs.length = data.length - window_size.toNat + 1 ∧
      meds.length = data.length - window_size.toNat + 1 ∧
      idxs.length = data.length - window_size.toNat + 1 ∧
      (∀ k, k < idxs.length →
        idxs.getD k 0 = (k : Int) + window_size.tdiv 2) := by
  have hc : _check_input data window_size = Except.ok () := by
    unfold _check_input
    rw [if_neg]
    push_neg
    exact ⟨h1, h2⟩
  have hrange : ((data.length : Int) - window_size + 1).toNat
      = data.length - window_size.toNat + 1 := by
    omega
  refine ⟨ma_from data window_size.toNat
      ((data.take window_size.toNat).sum / (window_size.toNat : ℚ)) 0
      (data.length - window_size.toNat),
    (List.range (data.length - window_size.toNat + 1)).map
      (fun i => np_median ((data.drop i).take window_size.toNat)),
    _make_window_indices data window_size, ?_, ?_, ?_, ?_, ?_, ?_⟩
  · unfold moving_average
    rw [hc]
    rfl
  · unfold moving_median
    rw [hc]
    rfl
  · exact ma_from_length data window_size.toNat (data.length - window_size.toNat) 0 _
  · simp
  · simp only [_make_window_indices, List.length_map, List.length_range]
    exact hrange
  · intro k hk
    simp only [_make_window_indices, List.length_map, List.length_range] at hk
    simp only [_make_window_indices]
    exact getD_map_range (fun i => (i : Int) + window_size.tdiv 2) _ k hk

/-- C3 witness: the joint statement instantiated on a concrete valid
call. -/
theorem moving_stats_lengths_and_indices_witness :
    ∃ (avgs meds : List ℚ) (idxs : List Int),
      moving_average [1, 2, 3, 4] 3 true = Except.ok (avgs, some idxs) ∧
      moving_median [1, 2, 3, 4] 3 true = Except.ok (meds, some idxs) ∧
      avgs.length = ([1, 2, 3, 4] : List ℚ).length - (3 : Int).toNat + 1 ∧
      meds.length = ([1, 2, 3, 4] : List ℚ).length - (3 : Int).toNat + 1 ∧
      idxs.length = ([1, 2, 3, 4] : List ℚ).length - (3 : Int).toNat + 1 ∧
      (∀ k, k < idxs.length →
        idxs.getD k 0 = (k : Int) + (3 : Int).tdiv 2) :=
  moving_stats_lengths_and_indices [1, 2, 3, 4] 3 (by decide) (by simp)

/-- Sliding the window one step to the right removes the oldest element
and appends the next one to the sum. -/
lemma window_sum_succ (data : List ℚ) (w i : ℕ) (h : i + w + 1 < data.length) :
    ((data.drop (i + 1)).take (w + 1)).sum
      = ((data.drop i).take (w + 1)).sum - data.getD i 0 + data.getD (i + w + 1) 0 := by
  have hi : i < data.length := by omega
  have hiw : i + w + 1 < data.length := h
  have hgi : data.getD i 0 = data[i] := by
    rw [List.getD_eq_getElem?_getD, List.getElem?_eq_getElem hi]
    rfl
  have hgiw : data.getD (i + w + 1) 0 = data[i + w + 1] := by
    rw [List.getD_eq_getElem?_getD, List.getElem?_eq_getElem hiw]
    rfl
  have hdrop : data.drop i = data[i] :: data.drop (i + 1) :=
    List.drop_eq_getElem_cons hi
  have hleft : ((data.drop i).take (w + 1)).sum
      = data[i] + ((data.drop (i + 1)).take w).sum := by
    rw [hdrop, List.take_succ_cons, List.sum_cons]
  have helt : (data.drop (i + 1))[w]? = some data[i + w + 1] := by
    rw [List.getElem?_drop]
    have : i + 1 + w = i + w + 1 := by omega
    rw [this, List.getElem?_eq_getElem hiw]
  have hright : ((data.drop (i + 1)).take (w + 1)).sum
      = ((data.drop (i + 1)).take w).sum + data[i + w + 1] := by
    rw [List.take_succ, helt]
    simp
  rw [hleft, hright, hgi, hgiw]
  ring

/-- The incremental loop agrees with the direct window mean at every
position, given a correct seed. -/
lemma ma_from_spec (data : List ℚ) (w : ℕ) :
    ∀ (steps i : ℕ) (prev : ℚ),
      i + steps + (w + 1) ≤ data.length →
      prev = direct_window_mean data (w + 1) i →
      ∀ k, k ≤ steps →
        (ma_from data (w + 1) prev i steps).getD k 0
          = direct_window_mean data (w + 1) (i + k) := by
  intro steps
  induction steps with
  | zero =>
      intro i prev hlen hprev k hk
      have hk0 : k = 0 := Nat.le_zero.mp hk
      subst hk0
      simpa [ma_from] using hprev
  | succ n ih =>
      intro i prev hlen hprev k hk
      cases k with
      | zero => simpa [ma_from] using hprev
      | succ k2 =>
          have hstep : prev + (data.getD (i + (w + 1)) 0 - data.getD i 0) / ((w + 1 : ℕ) : ℚ)
              = direct_window_mean data (w + 1) (i + 1) := by
            have hbound : i + w + 1 < data.length := by omega
            have hsum := window_sum_succ data w i hbound
            have hW : ((w + 1 : ℕ) : ℚ) ≠ 0 := by
              exact_mod_cast Nat.succ_ne_zero w
            have hidx : i + (w + 1) = i + w + 1 := by omega
            rw [hprev]
            unfold direct_window_mean
            rw [hidx, hsum]
            field_simp
            ring
          show (ma_from data (w + 1)
              (prev + (data.getD (i + (w + 1)) 0 - data.getD i 0) / ((w + 1 : ℕ) : ℚ))
              (i + 1) n).getD k2 0 = direct_window_mean data (w + 1) (i + (k2 + 1))
          have := ih (i + 1)
            (prev + (data.getD (i + (w + 1)) 0 - data.getD i 0) / ((w + 1 : ℕ) : ℚ))
            (by omega) hstep k2 (by omega)
          have harg : i + 1 + k2 = i + (k2 + 1) := by omega
          rw [harg] at this
          exact this

/-- C4 counterexample: the example in the claim forgets the final window:
for data of length 6 and window size 3 there are four windows, so the code
returns [2, 3, 4, 5] with indices [1, 2, 3, 4], not [2, 3, 4] with
indices [1, 2, 3]. -/
theorem moving_average_example_counterexample :
    moving_average [1, 2, 3, 4, 5, 6] 3 true
      ≠ Except.ok ([2, 3, 4], some [1, 2, 3]) := by
  rw [show moving_average [1, 2, 3, 4, 5, 6] 3 true
      = Except.ok (([2, 3, 4, 5] : List ℚ), some ([1, 2, 3, 4] : List Int))
    from by norm_num [moving_average, _check_input, ma_from, _make_window_indices,
      List.range_succ, show (3 : Int).toNat = 3 from rfl,
      show (4 : Int).toNat = 4 from rfl, show Int.tdiv 3 2 = 1 from rfl,
      show ((6 : Int) - 3 + 1).toNat = 4 from rfl]]
  simp

/-- C4 amended: in exact arithmetic the incremental recurrence equals the
direct mean of every window; on the example data [1,2,3,4,5,6] with
window size 3 the code returns averages [2,3,4,5] with indices
[1,2,3,4]. -/
theorem moving_average_refines_direct_mean :
    (∀ (data : List ℚ) (window_size : Int),
        1 ≤ window_size → window_size ≤ (data.length : Int) →
        ∀ (avgs : List ℚ) (rest : Option (List Int)),
          moving_average data window_size false = Except.ok (avgs, rest) →
          ∀ k, k ≤ data.length - window_size.toNat →
            avgs.getD k 0 = direct_window_mean data window_size.toNat k) ∧
    moving_average [1, 2, 3, 4, 5, 6] 3 true
      = Except.ok ([2, 3, 4, 5], some [1, 2, 3, 4]) := by
  constructor
  · intro data window_size h1 h2 avgs rest h k hk
    have hc : _check_input data window_size = Except.ok () := by
      unfold _check_input
      rw [if_neg]
      push_neg
      exact ⟨h1, h2⟩
    unfold moving_average at h
    rw [hc] at h
    simp only [if_neg (Bool.false_ne_true)] at h
    injection h with h
    have havgs : avgs = ma_from data window_size.toNat
        ((data.take window_size.toNat).sum / (window_size.toNat : ℚ)) 0
        (data.length - window_size.toNat) := by
      have := congrArg Prod.fst h
      exact this.symm
    subst havgs
    obtain ⟨w, hw⟩ : ∃ w, window_size.toNat = w + 1 := by
      refine ⟨window_size.toNat - 1, ?_⟩
      omega
    rw [hw]
    have hseed : (data.take (w + 1)).sum / ((w + 1 : ℕ) : ℚ)
        = direct_window_mean data (w + 1) 0 := by
      unfold direct_window_mean
      rw [List.drop_zero]
    have := ma_from_spec data w (data.length - (w + 1)) 0
      ((data.take (w + 1)).sum / ((w + 1 : ℕ) : ℚ))
      (by omega) hseed k (by omega)
    simpa [hw] using this
  · norm_num [moving_average, _check_input, ma_from, _make_window_indices,
      List.range_succ, show (3 : Int).toNat = 3 from rfl,
      show (4 : Int).toNat = 4 from rfl, show Int.tdiv 3 2 = 1 from rfl,
      show ((6 : Int) - 3 + 1).toNat = 4 from rfl]

/-- C4 witness: the universal clause applied to the example data at window
position 1. -/
theorem moving_average_refines_direct_mean_witness :
    ([2, 3, 4, 5] : List ℚ).getD 1 0
      = direct_window_mean [1, 2, 3, 4, 5, 6] (3 : Int).toNat 1 :=
  moving_average_refines_direct_mean.1 [1, 2, 3, 4, 5, 6] 3 (by decide)
    (by simp) [2, 3, 4, 5] none
    (by norm_num [moving_average, _check_input, ma_from, _make_window_indices,
      List.range_succ, show (3 : Int).toNat = 3 from rfl,
      show (4 : Int).toNat = 4 from rfl, show Int.tdiv 3 2 = 1 from rfl,
      show ((6 : Int) - 3 + 1).toNat = 4 from rfl]) 1 (by simp)

end GeneralUtilities
